import Mathlib

/-!
Verification of the `patch` package (schema-migration engine) of this
repository: `Init`, `Apply`, `applySublevelPatches` and `applyOne`, together
with the slice of `state.State` they use.  Go `int` values are modelled as
`Int`; the ambient globals `Level`, `Sublevel` and `patches` are modelled as an
explicit `Config` value, matching the design note that registries are explicit
values injected at construction.
-/

set_option maxHeartbeats 1000000

namespace Patch

/-- Modelled from the spec: a value stored in the schema-less key/value map of
`state.State` (whose code is not under `src/`).  `int` is an integer entry, the
shape used by the patch markers; `raw` stands for data of any other shape,
whose decoding into an `*int` output fails with a decode error. -/
inductive Value where
  | int (n : Int)
  | raw (tag : String)
deriving DecidableEq

/-- Modelled from the spec: the lockable root `state.State` object (code not
under `src/`), reduced to its schema-less key/value map, the only part the
patch package reads or writes.  Locking is not modelled: every patch-engine
operation below runs while holding the single lock. -/
structure State where
  data : List (String × Value)
deriving DecidableEq

/-- Association-list lookup backing `State.lookup`. -/
def lookupA : List (String × Value) → String → Option Value
  | [], _ => none
  | (k, v) :: rest, key => if k = key then some v else lookupA rest key

/-- Modelled from the spec: reading the raw value stored under a key. -/
def State.lookup (s : State) (key : String) : Option Value :=
  lookupA s.data key

/-- Association-list update backing `State.set`. -/
def setA : List (String × Value) → String → Value → List (String × Value)
  | [], key, v => [(key, v)]
  | (k, w) :: rest, key, v =>
      if k = key then (key, v) :: rest else (k, w) :: setA rest key v

/-- Modelled from the spec: `state.Set`, storing `v` under `key` (the dirty
flag is irrelevant to the patch claims and is not modelled). -/
def State.set (s : State) (key : String) (v : Value) : State :=
  ⟨setA s.data key v⟩

/-- Result of `state.Get` with an `*int` output: a decoded integer, the
`ErrNoState` sentinel for an absent key, or a decode error for a stored value
of another shape. -/
inductive GetIntResult where
  | ok (n : Int)
  | noState
  | decodeError
deriving DecidableEq

/-- Modelled from the spec: `state.Get` into an `*int`. -/
def State.getInt (s : State) (key : String) : GetIntResult :=
  match s.lookup key with
  | none => .noState
  | some (.int n) => .ok n
  | some (.raw _) => .decodeError

/-- `PatchFunc` from the source: a Go `func(s *state.State) error` mutates the
state it is handed and returns an error value, so it is embedded as a function
producing the (possibly mutated) state together with an optional error
message.  On a `some` error the returned state is whatever the function left
behind, exactly as with a Go pointer argument. -/
def PatchFunc : Type := State → Option String × State

/-- The package globals: `Level`, `Sublevel` and the `patches` registry.  A Go
map lookup for a missing level and an explicitly stored `nil` slice are both
`none` (both are `nil` in Go, satisfying the `sublevels == nil` check); a
non-nil slice is `some`. -/
structure Config where
  Level : Int
  Sublevel : Int
  patches : Int → Option (List PatchFunc)

/-- `patches[level]` as used with `len` and indexing: a `nil` slice behaves as
the empty list. -/
def patchList (cfg : Config) (level : Int) : List PatchFunc :=
  (cfg.patches level).getD []

/-- The errors `Apply` can return, one constructor per `return` of an error in
the source: a decode error propagated from `state.Get`; `StartupIncompatible`
(`"cannot downgrade: software version is too old for the current system state
(patch level %d)"`, carrying the stored level); `MissingMigrationPath`
(`"cannot upgrade: software version is too new for the current system state
(patch level %d)"`, carrying `level-1`); and the wrapper `"cannot patch system
state to level %d, sublevel %d: %v"` around a failed patch function. -/
inductive PatchError where
  | decodeError (key : String)
  | startupIncompatible (stateLevel : Int)
  | missingMigrationPath (fromLevel : Int)
  | cannotPatch (level sublevel : Int) (msg : String)
deriving DecidableEq

/-- Observable events of one `Apply` run: `run level sublevel` marks the
invocation of the patch function `patches[level][sublevel]`, and
`committed level sublevel` marks the pair of `Set` calls in `applyOne` that
records `(level, sublevel)` as the stored patch markers. -/
inductive Event where
  | run (level sublevel : Int)
  | committed (level sublevel : Int)
deriving DecidableEq

/-- Result tag of a run: success, an error return, or a Go runtime panic
(index out of range on the sublevel slice). -/
inductive Res where
  | ok
  | err (e : PatchError)
  | panicked
deriving DecidableEq

/-- Outcome of a (partial) run: result tag, final state and event trace. -/
structure Outcome where
  res : Res
  state : State
  trace : List Event
deriving DecidableEq

/-- Go slice indexing with an `int` index: `none` models the out-of-range
panic for a negative index (in-range positive indices are guaranteed by the
loop guard in `applySublevelPatches`). -/
def goIndex (l : List PatchFunc) (i : Int) : Option PatchFunc :=
  if 0 ≤ i then l.get? i.toNat else none

/-- `applyOne` from the source: run one patch function under the lock; on
success `Set` both `"patch-level"` and `"patch-sublevel"` to the new pair, on
failure return the patch's error with whatever state the patch left. -/
def applyOne (patch : PatchFunc) (s : State) (newLevel newSublevel : Int) :
    Option String × State :=
  match patch s with
  | (some e, s2) => (some e, s2)
  | (none, s2) =>
      (none, (s2.set "patch-level" (.int newLevel)).set "patch-sublevel"
        (.int newSublevel))

/-- The loop body of `applySublevelPatches`, with fuel equal to the number of
remaining iterations (`len(patches[level]) - sublevel`, clamped at zero, which
is exactly how often the guard `sublevel < len(patches[level])` succeeds for a
counter incremented by one each time). -/
def sublevelLoop (cfg : Config) (level : Int) :
    Nat → Int → State → Outcome
  | 0, _, s => ⟨.ok, s, []⟩
  | fuel + 1, sublevel, s =>
      match goIndex (patchList cfg level) sublevel with
      | none => ⟨.panicked, s, []⟩
      | some p =>
          match applyOne p s level sublevel with
          | (some e, s2) =>
              ⟨.err (.cannotPatch level sublevel e), s2, [.run level sublevel]⟩
          | (none, s2) =>
              let o := sublevelLoop cfg level fuel (sublevel + 1) s2
              ⟨o.res, o.state,
                .run level sublevel :: .committed level sublevel :: o.trace⟩

/-- `applySublevelPatches` from the source: apply all sublevel patches of
`level` starting at index `firstSublevel`. -/
def applySublevelPatches (cfg : Config) (level firstSublevel : Int)
    (s : State) : Outcome :=
  sublevelLoop cfg level
    (((patchList cfg level).length : Int) - firstSublevel).toNat firstSublevel s

/-- Sequencing of two phases of `Apply`: the second runs only if the first
returned `ok`; errors and panics propagate with the state and trace produced
so far. -/
def andThen (o : Outcome) (f : State → Outcome) : Outcome :=
  match o.res with
  | .ok =>
      let o2 := f o.state
      ⟨o2.res, o2.state, o.trace ++ o2.trace⟩
  | _ => o

/-- The `for level := stateLevel + 1; level <= Level; level++` loop of
`Apply`, with fuel equal to the remaining number of levels: a `nil` registry
entry is the missing-migration-path error, otherwise the level's full sublevel
sequence is applied from index 0. -/
def levelLoop (cfg : Config) : Nat → Int → State → Outcome
  | 0, _, s => ⟨.ok, s, []⟩
  | fuel + 1, level, s =>
      match cfg.patches level with
      | none => ⟨.err (.missingMigrationPath (level - 1)), s, []⟩
      | some _ =>
          andThen (applySublevelPatches cfg level 0 s) fun s2 =>
            levelLoop cfg fuel (level + 1) s2

/-- Lines 76–86 of `Apply`: read the stored markers.  The sublevel is read
only when the level read returned `nil` or `ErrNoState`; an `ErrNoState`
leaves the corresponding variable at its zero value; any other error is
returned before any comparison. -/
def readStored (s : State) : Except PatchError (Int × Int) :=
  match s.getInt "patch-level" with
  | .decodeError => .error (.decodeError "patch-level")
  | r1 =>
      match s.getInt "patch-sublevel" with
      | .decodeError => .error (.decodeError "patch-sublevel")
      | r2 =>
          .ok (match r1 with | .ok n => n | _ => 0,
               match r2 with | .ok n => n | _ => 0)

/-- The body of `Apply` after the stored markers have been read. -/
def applyCore (cfg : Config) (stateLevel stateSublevel : Int) (s : State) :
    Outcome :=
  if stateLevel > cfg.Level then ⟨.err (.startupIncompatible stateLevel), s, []⟩
  else if stateLevel = cfg.Level ∧ stateSublevel = cfg.Sublevel then ⟨.ok, s, []⟩
  else if stateLevel = cfg.Level ∧ stateSublevel > cfg.Sublevel then
    ⟨.ok, s.set "patch-sublevel" (.int cfg.Sublevel), []⟩
  else
    andThen
      (if stateSublevel + 1 < ((patchList cfg stateLevel).length : Int) then
        applySublevelPatches cfg stateLevel (stateSublevel + 1) s
      else ⟨.ok, s, []⟩)
      fun s2 => levelLoop cfg (cfg.Level - stateLevel).toNat (stateLevel + 1) s2

/-- `Apply` from the source. -/
def Apply (cfg : Config) (s : State) : Outcome :=
  match readStored s with
  | .error e => ⟨.err e, s, []⟩
  | .ok (stateLevel, stateSublevel) => applyCore cfg stateLevel stateSublevel s

/-- `Init` from the source: stamp an empty state at the running level and
sublevel; `none` models the `panic` taken when a marker is already present
(`s.Get(...) != state.ErrNoState`, which also fires on a decode error). -/
def Init (cfg : Config) (s : State) : Option State :=
  match s.getInt "patch-level" with
  | .noState =>
      let s1 := s.set "patch-level" (.int cfg.Level)
      match s1.getInt "patch-sublevel" with
      | .noState => some (s1.set "patch-sublevel" (.int cfg.Sublevel))
      | _ => none
  | _ => none

/-- The trace of `n` consecutive successful patch applications of `level`
starting at index `sublevel`: each invocation immediately followed by its
marker commit, indices ascending. -/
def expTrace (level : Int) : Int → Nat → List Event
  | _, 0 => []
  | sublevel, n + 1 =>
      .run level sublevel :: .committed level sublevel ::
        expTrace level (sublevel + 1) n

/-- The trace of `n` consecutive fully-applied levels starting at `level`:
each level's complete sublevel list from index 0. -/
def expLvlTrace (cfg : Config) : Int → Nat → List Event
  | _, 0 => []
  | level, n + 1 =>
      expTrace level 0 (patchList cfg level).length ++
        expLvlTrace cfg (level + 1) n

/-- Every patch function in the list succeeds on every state. -/
def listOk (ps : List PatchFunc) : Prop :=
  ∀ p ∈ ps, ∀ st, (p st).1 = none

/-- Every patch function in the list leaves the stored patch markers unchanged
whenever it fails. -/
def failPres (ps : List PatchFunc) : Prop :=
  ∀ p ∈ ps, ∀ st e st2, p st = (some e, st2) →
    st2.lookup "patch-level" = st.lookup "patch-level" ∧
    st2.lookup "patch-sublevel" = st.lookup "patch-sublevel"

/-- One step of the scan for the last marker commit of a trace. -/
def commitStep (acc : Option (Int × Int)) (e : Event) : Option (Int × Int) :=
  match e with
  | .committed a b => some (a, b)
  | _ => acc

/-- The `(level, sublevel)` pair recorded by the last marker commit of a
trace, if any. -/
def lastCommitted (tr : List Event) : Option (Int × Int) :=
  tr.foldl commitStep none

/-- The stored patch markers of an outcome's final state are exactly those of
its last marker commit, or those of the initial state when nothing was
committed. -/
def keysFrom (s0 : State) (o : Outcome) : Prop :=
  match lastCommitted o.trace with
  | some ab =>
      o.state.lookup "patch-level" = some (.int ab.1) ∧
      o.state.lookup "patch-sublevel" = some (.int ab.2)
  | none =>
      o.state.lookup "patch-level" = s0.lookup "patch-level" ∧
      o.state.lookup "patch-sublevel" = s0.lookup "patch-sublevel"

/-- A patch function that succeeds and changes nothing. -/
def pId : PatchFunc := fun st => (none, st)

/-- A patch function that overwrites the stored patch level and then fails. -/
def pBad : PatchFunc := fun st => (some "boom", st.set "patch-level" (.int 99))

/-- Registry for the C1 scenario: running (0, 2) with three sublevel patches
at level 0. -/
def cfgA : Config := ⟨0, 2, fun lv => if lv = 0 then some [pId, pId, pId] else none⟩

/-- A state stamped at (0, 0). -/
def sA : State := ⟨[("patch-level", .int 0), ("patch-sublevel", .int 0)]⟩

/-- Registry for the negative-sublevel counterexample: running (0, 0) with one
sublevel patch at level 0. -/
def cfgB : Config := ⟨0, 0, fun lv => if lv = 0 then some [pId] else none⟩

/-- A state whose stored sublevel is -2. -/
def sB : State := ⟨[("patch-level", .int 0), ("patch-sublevel", .int (-2))]⟩

/-- Registry for the failing-patch counterexample: running (1, 0) with the
marker-corrupting `pBad` as the level-1 patch. -/
def cfgC : Config := ⟨1, 0, fun lv => if lv = 1 then some [pBad] else none⟩

/-- The empty state. -/
def sEmpty : State := ⟨[]⟩

/-- Registry for the C4 counterexample: running (1, 0) with an empty registry. -/
def cfgD : Config := ⟨1, 0, fun _ => none⟩

/-- A state stamped at level 0 with stored sublevel -2. -/
def sD : State := ⟨[("patch-level", .int 0), ("patch-sublevel", .int (-2))]⟩

/-- Registry for the C3/C6/C7 witnesses: running (1, 0), no patches. -/
def cfgE : Config := ⟨1, 0, fun _ => none⟩

/-- A state stamped at (5, 0): stored level newer than `cfgE`. -/
def sE : State := ⟨[("patch-level", .int 5), ("patch-sublevel", .int 0)]⟩

/-- A state stamped at (1, 3): same level as `cfgE`, newer sublevel. -/
def sF : State := ⟨[("patch-level", .int 1), ("patch-sublevel", .int 3)]⟩

/-- A state stamped at (1, 0): exactly the running pair of `cfgE`. -/
def sG : State := ⟨[("patch-level", .int 1), ("patch-sublevel", .int 0)]⟩

/-- A state whose sublevel marker does not decode as an integer. -/
def sH : State := ⟨[("patch-level", .int 5), ("patch-sublevel", .raw "x")]⟩

/-- Registry for the C4 witness: running (2, 0), levels 1 and 2 present. -/
def cfgI : Config :=
  ⟨2, 0, fun lv =>
    if lv = 1 then some [pId] else if lv = 2 then some [pId, pId] else none⟩

/-- A state stamped at (0, 0). -/
def sI : State := ⟨[("patch-level", .int 0), ("patch-sublevel", .int 0)]⟩

/-- A patch function that fails without touching the state. -/
def pFail : PatchFunc := fun st => (some "boom", st)

/-- Registry for the C2 witness: running (1, 0) with a failing but
marker-preserving patch at level 1. -/
def cfgJ : Config := ⟨1, 0, fun lv => if lv = 1 then some [pFail] else none⟩

/-! ### Basic lemmas about the key/value store -/

theorem lookupA_setA_self (l : List (String × Value)) (k : String) (v : Value) :
    lookupA (setA l k v) k = some v := by
  induction l with
  | nil => simp [setA, lookupA]
  | cons hd tl ih =>
      obtain ⟨k0, v0⟩ := hd
      by_cases h : k0 = k
      · simp [setA, h, lookupA]
      · simp [setA, h, lookupA, ih]

theorem lookupA_setA_ne (l : List (String × Value)) (k k2 : String) (v : Value)
    (h : k2 ≠ k) : lookupA (setA l k v) k2 = lookupA l k2 := by
  induction l with
  | nil => simp [setA, lookupA, Ne.symm h]
  | cons hd tl ih =>
      obtain ⟨k0, v0⟩ := hd
      by_cases h0 : k0 = k
      · subst h0
        simp [setA, lookupA, Ne.symm h]
      · simp only [setA, h0, if_false, lookupA]
        by_cases h2 : k0 = k2 <;> simp [h2, ih]

theorem lookup_set_self (s : State) (k : String) (v : Value) :
    (s.set k v).lookup k = some v :=
  lookupA_setA_self s.data k v

theorem lookup_set_ne (s : State) (k k2 : String) (v : Value) (h : k2 ≠ k) :
    (s.set k v).lookup k2 = s.lookup k2 :=
  lookupA_setA_ne s.data k k2 v h

theorem getInt_set_self (s : State) (k : String) (n : Int) :
    (s.set k (.int n)).getInt k = .ok n := by
  simp [State.getInt, lookup_set_self]

theorem getInt_set_ne (s : State) (k k2 : String) (v : Value) (h : k2 ≠ k) :
    (s.set k v).getInt k2 = s.getInt k2 := by
  simp [State.getInt, lookup_set_ne s k k2 v h]

theorem level_ne_sublevel : "patch-level" ≠ "patch-sublevel" := by decide

/-- The state written by the two `Set` calls of `applyOne`. -/
theorem commit_lookup_level (s : State) (a b : Int) :
    ((s.set "patch-level" (.int a)).set "patch-sublevel" (.int b)).lookup
      "patch-level" = some (.int a) := by
  rw [lookup_set_ne _ _ _ _ level_ne_sublevel, lookup_set_self]

theorem commit_lookup_sub (s : State) (a b : Int) :
    ((s.set "patch-level" (.int a)).set "patch-sublevel" (.int b)).lookup
      "patch-sublevel" = some (.int b) :=
  lookup_set_self _ _ _

theorem commit_getInt_level (s : State) (a b : Int) :
    ((s.set "patch-level" (.int a)).set "patch-sublevel" (.int b)).getInt
      "patch-level" = .ok a := by
  simp [State.getInt, commit_lookup_level]

theorem commit_getInt_sub (s : State) (a b : Int) :
    ((s.set "patch-level" (.int a)).set "patch-sublevel" (.int b)).getInt
      "patch-sublevel" = .ok b := by
  simp [State.getInt, commit_lookup_sub]

/-! ### Reading the stored markers -/

theorem readStored_eq_ok_iff (s : State) (l sl : Int) :
    readStored s = .ok (l, sl) ↔
      ((s.getInt "patch-level" = .ok l ∨
        (s.getInt "patch-level" = .noState ∧ l = 0)) ∧
       (s.getInt "patch-sublevel" = .ok sl ∨
        (s.getInt "patch-sublevel" = .noState ∧ sl = 0))) := by
  rcases h1 : s.getInt "patch-level" with n1 | _ | _ <;>
    rcases h2 : s.getInt "patch-sublevel" with n2 | _ | _ <;>
      simp [readStored, h1, h2, Prod.ext_iff, eq_comm]

theorem readStored_commit (s : State) (a b : Int) :
    readStored ((s.set "patch-level" (.int a)).set "patch-sublevel" (.int b)) =
      .ok (a, b) := by
  rw [readStored_eq_ok_iff]
  exact ⟨Or.inl (commit_getInt_level s a b), Or.inl (commit_getInt_sub s a b)⟩

theorem readStored_set_sub (s : State) (l sl n : Int)
    (h : readStored s = .ok (l, sl)) :
    readStored (s.set "patch-sublevel" (.int n)) = .ok (l, n) := by
  rw [readStored_eq_ok_iff] at h ⊢
  refine ⟨?_, Or.inl (getInt_set_self s _ n)⟩
  rw [getInt_set_ne s _ _ _ level_ne_sublevel]
  exact h.1

/-! ### Outcome sequencing -/

theorem andThen_ok (o : Outcome) (f : State → Outcome) (h : o.res = .ok) :
    andThen o f =
      ⟨(f o.state).res, (f o.state).state, o.trace ++ (f o.state).trace⟩ := by
  simp [andThen, h]

theorem andThen_notok (o : Outcome) (f : State → Outcome) (h : o.res ≠ .ok) :
    andThen o f = o := by
  rcases hr : o.res with _ | e | _
  · exact absurd hr h
  · simp [andThen, hr]
  · simp [andThen, hr]

theorem andThen_res_ok (o : Outcome) (f : State → Outcome) :
    (andThen o f).res = .ok ↔ o.res = .ok ∧ (f o.state).res = .ok := by
  by_cases h : o.res = .ok
  · rw [andThen_ok o f h]; simp [h]
  · rw [andThen_notok o f h]; simp [h]

/-! ### The sublevel-patch loop -/

theorem goIndex_mem (l : List PatchFunc) (i : Int) (p : PatchFunc)
    (h : goIndex l i = some p) : p ∈ l := by
  unfold goIndex at h
  by_cases h0 : 0 ≤ i
  · rw [if_pos h0] at h; exact List.get?_mem h
  · rw [if_neg h0] at h; exact absurd h (by simp)

theorem sublevelLoop_trace_mem (cfg : Config) (level : Int) :
    ∀ (fuel : Nat) (sublevel : Int) (s : State),
      ∀ e ∈ (sublevelLoop cfg level fuel sublevel s).trace,
        ∃ i : Int, (e = .run level i ∨ e = .committed level i) ∧ sublevel ≤ i := by
  intro fuel
  induction fuel with
  | zero => intro sublevel s e he; simp [sublevelLoop] at he
  | succ fuel ih =>
      intro sublevel s e he
      rcases hg : goIndex (patchList cfg level) sublevel with _ | p
      · simp [sublevelLoop, hg] at he
      · rcases hps : p s with ⟨pe, s1⟩
        rcases pe with _ | msg
        · have ha : applyOne p s level sublevel =
              (none, (s1.set "patch-level" (.int level)).set "patch-sublevel"
                (.int sublevel)) := by
            simp [applyOne, hps]
          simp only [sublevelLoop, hg, ha, Outcome.mk.injEq, List.mem_cons] at he
          rcases he with he | he | he
          · exact ⟨sublevel, Or.inl he, le_refl _⟩
          · exact ⟨sublevel, Or.inr he, le_refl _⟩
          · obtain ⟨i, hi, hle⟩ := ih (sublevel + 1) _ e he
            exact ⟨i, hi, by omega⟩
        · have ha : applyOne p s level sublevel = (some msg, s1) := by
            simp [applyOne, hps]
          simp only [sublevelLoop, hg, ha, List.mem_singleton] at he
          exact ⟨sublevel, Or.inl he, le_refl _⟩

theorem sublevelLoop_ok_keys (cfg : Config) (level : Int) :
    ∀ (fuel : Nat) (sublevel : Int) (s : State),
      (sublevelLoop cfg level fuel sublevel s).res = .ok →
      (fuel = 0 ∧ sublevelLoop cfg level fuel sublevel s = ⟨.ok, s, []⟩) ∨
      (0 < fuel ∧
        (sublevelLoop cfg level fuel sublevel s).state.getInt "patch-level" =
          .ok level ∧
        (sublevelLoop cfg level fuel sublevel s).state.getInt "patch-sublevel" =
          .ok (sublevel + fuel - 1)) := by
  intro fuel
  induction fuel with
  | zero => intro sublevel s _; exact Or.inl ⟨rfl, rfl⟩
  | succ fuel ih =>
      intro sublevel s h
      rcases hg : goIndex (patchList cfg level) sublevel with _ | p
      · rw [show sublevelLoop cfg level (fuel + 1) sublevel s =
            ⟨.panicked, s, []⟩ by simp [sublevelLoop, hg]] at h
        exact absurd h (by simp)
      · rcases hps : p s with ⟨pe, s1⟩
        rcases pe with _ | msg
        · have ha : applyOne p s level sublevel =
              (none, (s1.set "patch-level" (.int level)).set "patch-sublevel"
                (.int sublevel)) := by
            simp [applyOne, hps]
          set s2 := (s1.set "patch-level" (.int level)).set "patch-sublevel"
            (.int sublevel) with hs2
          have hun : sublevelLoop cfg level (fuel + 1) sublevel s =
              ⟨(sublevelLoop cfg level fuel (sublevel + 1) s2).res,
               (sublevelLoop cfg level fuel (sublevel + 1) s2).state,
               .run level sublevel :: .committed level sublevel ::
                 (sublevelLoop cfg level fuel (sublevel + 1) s2).trace⟩ := by
            simp [sublevelLoop, hg, ha]
          rw [hun] at h ⊢
          have hres : (sublevelLoop cfg level fuel (sublevel + 1) s2).res = .ok := h
          refine Or.inr ⟨Nat.succ_pos fuel, ?_, ?_⟩
          · rcases ih (sublevel + 1) s2 hres with ⟨_, heq⟩ | ⟨_, hl, _⟩
            · rw [heq]
              exact commit_getInt_level s1 level sublevel
            · exact hl
          · rcases ih (sublevel + 1) s2 hres with ⟨hf0, heq⟩ | ⟨_, _, hsv⟩
            · rw [heq]
              have : (sublevel : Int) + ((fuel : Int) + 1) - 1 = sublevel := by
                subst hf0; push_cast; ring
              rw [show ((fuel + 1 : Nat) : Int) = (fuel : Int) + 1 by push_cast; ring,
                this]
              exact commit_getInt_sub s1 level sublevel
            · rw [show (sublevel : Int) + ((fuel + 1 : Nat) : Int) - 1 =
                  (sublevel + 1) + ((fuel : Nat) : Int) - 1 by push_cast; ring]
              exact hsv
        · have ha : applyOne p s level sublevel = (some msg, s1) := by
            simp [applyOne, hps]
          rw [show sublevelLoop cfg level (fuel + 1) sublevel s =
              ⟨.err (.cannotPatch level sublevel msg), s1, [.run level sublevel]⟩
            by simp [sublevelLoop, hg, ha]] at h
          exact absurd h (by simp)

theorem sublevelLoop_exact (cfg : Config) (level : Int)
    (hok : listOk (patchList cfg level)) :
    ∀ (fuel : Nat) (sublevel : Int) (s : State), 0 ≤ sublevel →
      sublevel + fuel = ((patchList cfg level).length : Int) →
      (sublevelLoop cfg level fuel sublevel s).res = .ok ∧
      (sublevelLoop cfg level fuel sublevel s).trace =
        expTrace level sublevel fuel := by
  intro fuel
  induction fuel with
  | zero => intro sublevel s _ _; exact ⟨rfl, rfl⟩
  | succ fuel ih =>
      intro sublevel s h0 hlen
      have hlt : sublevel.toNat < (patchList cfg level).length := by omega
      have hg : goIndex (patchList cfg level) sublevel =
          some ((patchList cfg level).get ⟨sublevel.toNat, hlt⟩) := by
        simp [goIndex, h0, List.get?_eq_get hlt]
      set p := (patchList cfg level).get ⟨sublevel.toNat, hlt⟩ with hp
      have hmem : p ∈ patchList cfg level := List.get_mem _ _ _
      rcases hps : p s with ⟨pe, s1⟩
      have hpe : pe = none := by
        have := hok p hmem s; rw [hps] at this; exact this
      subst hpe
      have ha : applyOne p s level sublevel =
          (none, (s1.set "patch-level" (.int level)).set "patch-sublevel"
            (.int sublevel)) := by
        simp [applyOne, hps]
      obtain ⟨ihres, ihtr⟩ := ih (sublevel + 1)
        ((s1.set "patch-level" (.int level)).set "patch-sublevel" (.int sublevel))
        (by omega) (by push_cast at hlen ⊢; omega)
      constructor
      · simp [sublevelLoop, hg, ha, ihres]
      · simp [sublevelLoop, hg, ha, ihtr, expTrace]

/-! ### Last-commit bookkeeping -/

theorem foldl_commitStep (tr : List Event) :
    ∀ acc, tr.foldl commitStep acc = (lastCommitted tr).elim acc some := by
  induction tr with
  | nil => intro acc; simp [lastCommitted]
  | cons e tl ih =>
      intro acc
      rcases e with ⟨a, b⟩ | ⟨a, b⟩
      · simp only [lastCommitted, List.foldl_cons, commitStep]
        exact ih acc
      · simp only [lastCommitted, List.foldl_cons, commitStep]
        rw [ih (some (a, b))]
        rcases lastCommitted tl with _ | x <;> simp

theorem lastCommitted_append (t1 t2 : List Event) :
    lastCommitted (t1 ++ t2) = (lastCommitted t2).elim (lastCommitted t1) some := by
  rw [lastCommitted, List.foldl_append, foldl_commitStep]
  rfl

theorem keysFrom_seq (s0 : State) (o1 o2 : Outcome) (r : Res)
    (h1 : keysFrom s0 o1) (h2 : keysFrom o1.state o2) :
    keysFrom s0 ⟨r, o2.state, o1.trace ++ o2.trace⟩ := by
  unfold keysFrom at h1 h2 ⊢
  simp only [lastCommitted_append]
  rcases hc2 : lastCommitted o2.trace with _ | ab2
  · rw [hc2] at h2
    rcases hc1 : lastCommitted o1.trace with _ | ab1
    · rw [hc1] at h1
      simp only [Option.elim]
      exact ⟨h2.1.trans h1.1, h2.2.trans h1.2⟩
    · rw [hc1] at h1
      simp only [Option.elim]
      exact ⟨h2.1.trans h1.1, h2.2.trans h1.2⟩
  · rw [hc2] at h2
    simp only [Option.elim]
    exact h2

theorem sublevelLoop_keysFrom (cfg : Config) (level : Int)
    (hfp : failPres (patchList cfg level)) :
    ∀ (fuel : Nat) (sublevel : Int) (s : State),
      keysFrom s (sublevelLoop cfg level fuel sublevel s) := by
  intro fuel
  induction fuel with
  | zero => intro sublevel s; exact ⟨rfl, rfl⟩
  | succ fuel ih =>
      intro sublevel s
      rcases hg : goIndex (patchList cfg level) sublevel with _ | p
      · rw [show sublevelLoop cfg level (fuel + 1) sublevel s =
            ⟨.panicked, s, []⟩ by simp [sublevelLoop, hg]]
        exact ⟨rfl, rfl⟩
      · have hmem : p ∈ patchList cfg level := goIndex_mem _ _ _ hg
        rcases hps : p s with ⟨pe, s1⟩
        rcases pe with _ | msg
        · have ha : applyOne p s level sublevel =
              (none, (s1.set "patch-level" (.int level)).set "patch-sublevel"
                (.int sublevel)) := by
            simp [applyOne, hps]
          set s2 := (s1.set "patch-level" (.int level)).set "patch-sublevel"
            (.int sublevel) with hs2
          rw [show sublevelLoop cfg level (fuel + 1) sublevel s =
              ⟨(sublevelLoop cfg level fuel (sublevel + 1) s2).res,
               (sublevelLoop cfg level fuel (sublevel + 1) s2).state,
               .run level sublevel :: .committed level sublevel ::
                 (sublevelLoop cfg level fuel (sublevel + 1) s2).trace⟩
            by simp [sublevelLoop, hg, ha]]
          have hkf := ih (sublevel + 1) s2
          unfold keysFrom at hkf ⊢
          simp only [show ∀ tr, lastCommitted
              (Event.run level sublevel :: Event.committed level sublevel :: tr) =
              (lastCommitted tr).elim (some (level, sublevel)) some from
            fun tr => by
              simp only [lastCommitted, List.foldl_cons, commitStep]
              exact foldl_commitStep tr (some (level, sublevel))]
          rcases hc : lastCommitted (sublevelLoop cfg level fuel (sublevel + 1)
              s2).trace with _ | ab
          · rw [hc] at hkf
            simp only [Option.elim]
            refine ⟨hkf.1.trans ?_, hkf.2.trans ?_⟩
            · exact commit_lookup_level s1 level sublevel
            · exact commit_lookup_sub s1 level sublevel
          · rw [hc] at hkf
            simp only [Option.elim]
            exact hkf
        · have ha : applyOne p s level sublevel = (some msg, s1) := by
            simp [applyOne, hps]
          rw [show sublevelLoop cfg level (fuel + 1) sublevel s =
              ⟨.err (.cannotPatch level sublevel msg), s1, [.run level sublevel]⟩
            by simp [sublevelLoop, hg, ha]]
          have := hfp p hmem s msg s1 hps
          exact ⟨this.1, this.2⟩

/-! ### The level loop -/

theorem levelLoop_succ_none (cfg : Config) (fuel : Nat) (level : Int) (s : State)
    (h : cfg.patches level = none) :
    levelLoop cfg (fuel + 1) level s =
      ⟨.err (.missingMigrationPath (level - 1)), s, []⟩ := by
  simp [levelLoop, h]

theorem levelLoop_succ_some (cfg : Config) (fuel : Nat) (level : Int) (s : State)
    (ps : List PatchFunc) (h : cfg.patches level = some ps) :
    levelLoop cfg (fuel + 1) level s =
      andThen (applySublevelPatches cfg level 0 s) fun s2 =>
        levelLoop cfg fuel (level + 1) s2 := by
  simp [levelLoop, h]

theorem applySub_zero (cfg : Config) (level : Int) (s : State) :
    applySublevelPatches cfg level 0 s =
      sublevelLoop cfg level (patchList cfg level).length 0 s := by
  unfold applySublevelPatches
  norm_num

theorem levelLoop_trace_mem (cfg : Config) :
    ∀ (fuel : Nat) (level : Int) (s : State),
      ∀ e ∈ (levelLoop cfg fuel level s).trace,
        ∃ lv i : Int, (e = .run lv i ∨ e = .committed lv i) ∧
          level ≤ lv ∧ lv < level + fuel := by
  intro fuel
  induction fuel with
  | zero => intro level s e he; simp [levelLoop] at he
  | succ fuel ih =>
      intro level s e he
      rcases hpat : cfg.patches level with _ | ps
      · rw [levelLoop_succ_none cfg fuel level s hpat] at he
        simp at he
      · rw [levelLoop_succ_some cfg fuel level s ps hpat] at he
        by_cases ho : (applySublevelPatches cfg level 0 s).res = .ok
        · rw [andThen_ok _ _ ho] at he
          rcases List.mem_append.mp he with he | he
          · rw [applySub_zero] at he
            obtain ⟨i, hi, _⟩ := sublevelLoop_trace_mem cfg level _ 0 s e he
            exact ⟨level, i, hi, le_refl _, by push_cast; omega⟩
          · obtain ⟨lv, i, hi, h1, h2⟩ := ih (level + 1) _ e he
            exact ⟨lv, i, hi, by omega, by push_cast at h2 ⊢; omega⟩
        · rw [andThen_notok _ _ ho] at he
          rw [applySub_zero] at he
          obtain ⟨i, hi, _⟩ := sublevelLoop_trace_mem cfg level _ 0 s e he
          exact ⟨level, i, hi, le_refl _, by push_cast; omega⟩

theorem levelLoop_ok_char (cfg : Config) :
    ∀ (fuel : Nat) (level : Int) (s : State),
      (levelLoop cfg fuel level s).res = .ok →
      (∀ lv : Int, level ≤ lv → lv < level + fuel → cfg.patches lv ≠ none) ∧
      (((levelLoop cfg fuel level s).state = s ∧
        (∀ lv : Int, level ≤ lv → lv < level + fuel → patchList cfg lv = [])) ∨
       (∃ m : Int, level ≤ m ∧ m < level + fuel ∧ patchList cfg m ≠ [] ∧
         (∀ lv : Int, m < lv → lv < level + fuel → patchList cfg lv = []) ∧
         (levelLoop cfg fuel level s).state.getInt "patch-level" = .ok m ∧
         (levelLoop cfg fuel level s).state.getInt "patch-sublevel" =
           .ok (((patchList cfg m).length : Int) - 1))) := by
  intro fuel
  induction fuel with
  | zero =>
      intro level s _
      refine ⟨fun lv h1 h2 => absurd h2 (by push_cast; omega),
        Or.inl ⟨rfl, fun lv h1 h2 => absurd h2 (by push_cast; omega)⟩⟩
  | succ fuel ih =>
      intro level s h
      rcases hpat : cfg.patches level with _ | ps
      · rw [levelLoop_succ_none cfg fuel level s hpat] at h
        exact absurd h (by simp)
      · rw [levelLoop_succ_some cfg fuel level s ps hpat] at h ⊢
        rw [andThen_res_ok] at h
        obtain ⟨h1, h2⟩ := h
        rw [andThen_ok _ _ h1]
        obtain ⟨ihpres, ihdisj⟩ := ih (level + 1)
          (applySublevelPatches cfg level 0 s).state h2
        have hpres : ∀ lv : Int, level ≤ lv → lv < level + (fuel + 1 : Nat) →
            cfg.patches lv ≠ none := by
          intro lv hl1 hl2
          rcases eq_or_lt_of_le hl1 with heq | hlt
          · rw [← heq, hpat]; simp
          · exact ihpres lv (by omega) (by push_cast at hl2 ⊢; omega)
        refine ⟨hpres, ?_⟩
        have ho1 := h1
        rw [applySub_zero] at ho1
        rcases sublevelLoop_ok_keys cfg level _ 0 s ho1 with
          ⟨hlen0, ho1eq⟩ | ⟨hlenpos, hkl, hks⟩
        · -- no sublevel patches at `level`
          have hplnil : patchList cfg level = [] := List.length_eq_zero.mp hlen0
          have hstate1 : (applySublevelPatches cfg level 0 s).state = s := by
            rw [applySub_zero, ho1eq]
          rw [hstate1] at ihdisj ⊢
          rcases ihdisj with ⟨hst, hemp⟩ | ⟨m, hm1, hm2, hmne, hemp, hkl2, hks2⟩
          · refine Or.inl ⟨hst, fun lv hl1 hl2 => ?_⟩
            rcases eq_or_lt_of_le hl1 with heq | hlt
            · rw [← heq]; exact hplnil
            · exact hemp lv (by omega) (by push_cast at hl2 ⊢; omega)
          · refine Or.inr ⟨m, by omega, by push_cast at hm2 ⊢; omega, hmne,
              fun lv hl1 hl2 => hemp lv (by omega) (by push_cast at hl2 ⊢; omega),
              hkl2, hks2⟩
        · -- the patches of `level` ran and committed (level, len - 1)
          have hplne : patchList cfg level ≠ [] := by
            intro hnil; rw [hnil] at hlenpos; simp at hlenpos
          rw [← applySub_zero] at hkl hks
          rcases ihdisj with ⟨hst, hemp⟩ | ⟨m, hm1, hm2, hmne, hemp, hkl2, hks2⟩
          · refine Or.inr ⟨level, le_refl _, by push_cast; omega, hplne,
              fun lv hl1 hl2 => hemp lv (by omega) (by push_cast at hl2 ⊢; omega),
              ?_, ?_⟩
            · rw [hst]; exact hkl
            · rw [hst]
              rw [show ((patchList cfg level).length : Int) - 1 =
                  0 + ((patchList cfg level).length : Int) - 1 by ring]
              exact hks
          · refine Or.inr ⟨m, by omega, by push_cast at hm2 ⊢; omega, hmne,
              fun lv hl1 hl2 => hemp lv (by omega) (by push_cast at hl2 ⊢; omega),
              hkl2, hks2⟩

theorem levelLoop_empty (cfg : Config) :
    ∀ (fuel : Nat) (level : Int) (s : State),
      (∀ lv : Int, level ≤ lv → lv < level + fuel → cfg.patches lv = some []) →
      levelLoop cfg fuel level s = ⟨.ok, s, []⟩ := by
  intro fuel
  induction fuel with
  | zero => intro level s _; rfl
  | succ fuel ih =>
      intro level s h
      have hlevel : cfg.patches level = some [] :=
        h level (le_refl _) (by push_cast; omega)
      have ho1 : applySublevelPatches cfg level 0 s = ⟨.ok, s, []⟩ := by
        rw [applySub_zero, patchList, hlevel]
        rfl
      rw [levelLoop_succ_some cfg fuel level s [] hlevel, ho1,
        andThen_ok _ _ rfl]
      have := ih (level + 1) s
        (fun lv h1 h2 => h lv (by omega) (by push_cast at h2 ⊢; omega))
      rw [show (⟨.ok, s, []⟩ : Outcome).state = s from rfl, this]
      rfl

theorem levelLoop_exact (cfg : Config) (hok : ∀ lv : Int, listOk (patchList cfg lv)) :
    ∀ (fuel : Nat) (level : Int) (s : State),
      (∀ lv : Int, level ≤ lv → lv < level + fuel → cfg.patches lv ≠ none) →
      (levelLoop cfg fuel level s).res = .ok ∧
      (levelLoop cfg fuel level s).trace = expLvlTrace cfg level fuel := by
  intro fuel
  induction fuel with
  | zero => intro level s _; exact ⟨rfl, rfl⟩
  | succ fuel ih =>
      intro level s h
      have hne : cfg.patches level ≠ none := h level (le_refl _) (by push_cast; omega)
      rcases hpat : cfg.patches level with _ | ps
      · exact absurd hpat hne
      · obtain ⟨hres1, htr1⟩ := sublevelLoop_exact cfg level (hok level)
          (patchList cfg level).length 0 s (le_refl _) (by ring)
        have ho1res : (applySublevelPatches cfg level 0 s).res = .ok := by
          rw [applySub_zero]; exact hres1
        obtain ⟨ihres, ihtr⟩ := ih (level + 1) (applySublevelPatches cfg level 0 s).state
          (fun lv h1 h2 => h lv (by omega) (by push_cast at h2 ⊢; omega))
        rw [levelLoop_succ_some cfg fuel level s ps hpat, andThen_ok _ _ ho1res]
        refine ⟨ihres, ?_⟩
        show (applySublevelPatches cfg level 0 s).trace ++ _ = _
        rw [ihtr, applySub_zero, htr1]
        rfl

theorem levelLoop_missing (cfg : Config) (hok : ∀ lv : Int, listOk (patchList cfg lv))
    (l0 : Int) (hmiss : cfg.patches l0 = none) :
    ∀ (fuel : Nat) (level : Int) (s : State), level ≤ l0 → l0 < level + fuel →
      (∀ lv : Int, level ≤ lv → lv < l0 → cfg.patches lv ≠ none) →
      (levelLoop cfg fuel level s).res = .err (.missingMigrationPath (l0 - 1)) ∧
      ∀ e ∈ (levelLoop cfg fuel level s).trace,
        ∃ lv i : Int, (e = .run lv i ∨ e = .committed lv i) ∧ lv < l0 := by
  intro fuel
  induction fuel with
  | zero => intro level s h1 h2 _; exact absurd h2 (by push_cast; omega)
  | succ fuel ih =>
      intro level s h1 h2 hpres
      rcases eq_or_lt_of_le h1 with heq | hlt
      · rw [← heq] at hmiss
        rw [levelLoop_succ_none cfg fuel level s hmiss]
        exact ⟨by rw [heq], by simp⟩
      · have hne : cfg.patches level ≠ none := hpres level (le_refl _) hlt
        rcases hpat : cfg.patches level with _ | ps
        · exact absurd hpat hne
        · obtain ⟨hres1, _⟩ := sublevelLoop_exact cfg level (hok level)
            (patchList cfg level).length 0 s (le_refl _) (by ring)
          have ho1res : (applySublevelPatches cfg level 0 s).res = .ok := by
            rw [applySub_zero]; exact hres1
          obtain ⟨ihres, ihtr⟩ := ih (level + 1)
            (applySublevelPatches cfg level 0 s).state (by omega)
            (by push_cast at h2 ⊢; omega)
            (fun lv hl1 hl2 => hpres lv (by omega) hl2)
          rw [levelLoop_succ_some cfg fuel level s ps hpat, andThen_ok _ _ ho1res]
          refine ⟨ihres, fun e he => ?_⟩
          rcases List.mem_append.mp he with he | he
          · rw [applySub_zero] at he
            obtain ⟨i, hi, _⟩ := sublevelLoop_trace_mem cfg level _ 0 s e he
            exact ⟨level, i, hi, hlt⟩
          · exact ihtr e he

theorem levelLoop_keysFrom (cfg : Config)
    (hfp : ∀ lv : Int, failPres (patchList cfg lv)) :
    ∀ (fuel : Nat) (level : Int) (s : State),
      keysFrom s (levelLoop cfg fuel level s) := by
  intro fuel
  induction fuel with
  | zero => intro level s; exact ⟨rfl, rfl⟩
  | succ fuel ih =>
      intro level s
      rcases hpat : cfg.patches level with _ | ps
      · rw [levelLoop_succ_none cfg fuel level s hpat]
        exact ⟨rfl, rfl⟩
      · rw [levelLoop_succ_some cfg fuel level s ps hpat]
        have hkf1 : keysFrom s (applySublevelPatches cfg level 0 s) := by
          rw [applySub_zero]
          exact sublevelLoop_keysFrom cfg level (hfp level) _ 0 s
        by_cases ho : (applySublevelPatches cfg level 0 s).res = .ok
        · rw [andThen_ok _ _ ho]
          exact keysFrom_seq s _ _ _ hkf1
            (ih (level + 1) (applySublevelPatches cfg level 0 s).state)
        · rw [andThen_notok _ _ ho]
          exact hkf1

/-! ### The branches of Apply -/

theorem applyCore_incompatible (cfg : Config) (sl ss : Int) (s : State)
    (h : sl > cfg.Level) :
    applyCore cfg sl ss s = ⟨.err (.startupIncompatible sl), s, []⟩ := by
  simp [applyCore, h]

theorem applyCore_noop (cfg : Config) (sl ss : Int) (s : State)
    (h1 : sl = cfg.Level) (h2 : ss = cfg.Sublevel) :
    applyCore cfg sl ss s = ⟨.ok, s, []⟩ := by
  have hng : ¬ sl > cfg.Level := by omega
  simp [applyCore, hng, h1, h2]

theorem applyCore_downgrade (cfg : Config) (sl ss : Int) (s : State)
    (h1 : sl = cfg.Level) (h2 : ss > cfg.Sublevel) :
    applyCore cfg sl ss s =
      ⟨.ok, s.set "patch-sublevel" (.int cfg.Sublevel), []⟩ := by
  have hng : ¬ sl > cfg.Level := by omega
  have hne : ¬ (sl = cfg.Level ∧ ss = cfg.Sublevel) := by
    rintro ⟨_, h⟩; omega
  unfold applyCore
  rw [if_neg hng, if_neg hne, if_pos ⟨h1, h2⟩]

theorem applyCore_else (cfg : Config) (sl ss : Int) (s : State)
    (h1 : ¬ sl > cfg.Level) (h2 : ¬ (sl = cfg.Level ∧ ss = cfg.Sublevel))
    (h3 : ¬ (sl = cfg.Level ∧ ss > cfg.Sublevel)) :
    applyCore cfg sl ss s =
      andThen
        (if ss + 1 < ((patchList cfg sl).length : Int) then
          applySublevelPatches cfg sl (ss + 1) s
        else ⟨.ok, s, []⟩)
        (fun s2 => levelLoop cfg (cfg.Level - sl).toNat (sl + 1) s2) := by
  simp [applyCore, h1, h2, h3]

theorem Apply_readStored_error (cfg : Config) (s : State) (e : PatchError)
    (h : readStored s = .error e) : Apply cfg s = ⟨.err e, s, []⟩ := by
  simp [Apply, h]

theorem Apply_readStored_ok (cfg : Config) (s : State) (l sl : Int)
    (h : readStored s = .ok (l, sl)) : Apply cfg s = applyCore cfg l sl s := by
  simp [Apply, h]

theorem readStored_error_shape (s : State) (e : PatchError)
    (h : readStored s = .error e) : ∃ k, e = .decodeError k := by
  rcases h1 : s.getInt "patch-level" with n1 | _ | _ <;>
    rcases h2 : s.getInt "patch-sublevel" with n2 | _ | _ <;>
      simp [readStored, h1, h2] at h <;> exact ⟨_, h.symm⟩

/-- A state whose markers put nothing in front of it makes the body of `Apply`
a successful no-op: nothing older than the running level is stored, no
sublevel patch at the stored level remains, and every strictly newer level up
to the running one has a present-but-empty patch list. -/
theorem applyCore_settled (cfg : Config) (l2 sl2 : Int) (s2 : State)
    (hle : l2 ≤ cfg.Level)
    (hsl : ((patchList cfg l2).length : Int) ≤ sl2 + 1)
    (hup : ∀ lv : Int, l2 < lv → lv ≤ cfg.Level → cfg.patches lv = some []) :
    (applyCore cfg l2 sl2 s2).res = .ok ∧ (applyCore cfg l2 sl2 s2).trace = [] := by
  by_cases hA : l2 = cfg.Level ∧ sl2 = cfg.Sublevel
  · rw [applyCore_noop cfg l2 sl2 s2 hA.1 hA.2]
    exact ⟨rfl, rfl⟩
  · by_cases hB : l2 = cfg.Level ∧ sl2 > cfg.Sublevel
    · rw [applyCore_downgrade cfg l2 sl2 s2 hB.1 hB.2]
      exact ⟨rfl, rfl⟩
    · have hng : ¬ l2 > cfg.Level := by omega
      rw [applyCore_else cfg l2 sl2 s2 hng hA hB]
      have hpre : ¬ (sl2 + 1 < ((patchList cfg l2).length : Int)) := by omega
      rw [if_neg hpre]
      have hll : levelLoop cfg (cfg.Level - l2).toNat (l2 + 1) s2 =
          ⟨.ok, s2, []⟩ := by
        apply levelLoop_empty
        intro lv hl1 hl2
        refine hup lv (by omega) ?_
        have ht : (((cfg.Level - l2).toNat : Nat) : Int) = cfg.Level - l2 :=
          Int.toNat_of_nonneg (by omega)
        omega
      rw [andThen_ok _ _ rfl]
      constructor
      · show (levelLoop cfg (cfg.Level - l2).toNat (l2 + 1) s2).res = .ok
        rw [hll]
      · show ([] : List Event) ++
          (levelLoop cfg (cfg.Level - l2).toNat (l2 + 1) s2).trace = []
        rw [hll]
        rfl

/-! ### Claim theorems -/

/-- C3: for every state whose stored patch level reads back as `l` with
`l > Level`, `Apply` fails with the StartupIncompatible error carrying `l`,
invokes no patch function (empty trace) and leaves the state exactly
unchanged. -/
theorem Apply_state_too_new_rejected (cfg : Config) (s : State) (l sl : Int)
    (hread : readStored s = .ok (l, sl)) (hgt : l > cfg.Level) :
    Apply cfg s = ⟨.err (.startupIncompatible l), s, []⟩ := by
  rw [Apply_readStored_ok cfg s l sl hread, applyCore_incompatible cfg l sl s hgt]

theorem Apply_state_too_new_rejected_witness :
    readStored sE = .ok (5, 0) ∧ (5 : Int) > cfgE.Level ∧
      Apply cfgE sE = ⟨.err (.startupIncompatible 5), sE, []⟩ :=
  ⟨by rfl, by decide,
    Apply_state_too_new_rejected cfgE sE 5 0 (by rfl) (by decide)⟩

/-- C6: when the stored level equals the running `Level` and the stored
sublevel is strictly greater than the running `Sublevel`, `Apply` rewrites
the stored sublevel down to the running one, succeeds, runs no patch
function, and leaves the stored patch level and every other key unchanged. -/
theorem Apply_downgrade_rewrites_sublevel (cfg : Config) (s : State) (sl : Int)
    (hread : readStored s = .ok (cfg.Level, sl)) (hgt : sl > cfg.Sublevel) :
    Apply cfg s = ⟨.ok, s.set "patch-sublevel" (.int cfg.Sublevel), []⟩ ∧
    (Apply cfg s).state.lookup "patch-sublevel" = some (.int cfg.Sublevel) ∧
    (∀ k : String, k ≠ "patch-sublevel" →
      (Apply cfg s).state.lookup k = s.lookup k) := by
  have hmain : Apply cfg s = ⟨.ok, s.set "patch-sublevel" (.int cfg.Sublevel), []⟩ := by
    rw [Apply_readStored_ok cfg s _ _ hread,
      applyCore_downgrade cfg cfg.Level sl s rfl hgt]
  refine ⟨hmain, ?_, ?_⟩
  · rw [hmain]; exact lookup_set_self s _ _
  · intro k hk; rw [hmain]; exact lookup_set_ne s _ k _ hk

theorem Apply_downgrade_rewrites_sublevel_witness :
    readStored sF = .ok (cfgE.Level, 3) ∧ (3 : Int) > cfgE.Sublevel ∧
      Apply cfgE sF = ⟨.ok, sF.set "patch-sublevel" (.int cfgE.Sublevel), []⟩ :=
  ⟨by rfl, by decide,
    (Apply_downgrade_rewrites_sublevel cfgE sF 3 (by rfl) (by decide)).1⟩

/-- C7: when the stored pair equals the running pair exactly, `Apply` is a
no-op: success, no patch invocation, and the state is returned unchanged. -/
theorem Apply_noop_when_current (cfg : Config) (s : State)
    (hread : readStored s = .ok (cfg.Level, cfg.Sublevel)) :
    Apply cfg s = ⟨.ok, s, []⟩ := by
  rw [Apply_readStored_ok cfg s _ _ hread,
    applyCore_noop cfg cfg.Level cfg.Sublevel s rfl rfl]

theorem Apply_noop_when_current_witness :
    readStored sG = .ok (cfgE.Level, cfgE.Sublevel) ∧
      Apply cfgE sG = ⟨.ok, sG, []⟩ :=
  ⟨by rfl, Apply_noop_when_current cfgE sG (by rfl)⟩

/-- C10: an absent marker key (the NoState sentinel) is read as 0 — both keys
absent proceed as from (0, 0), and one absent key defaults that component to 0
— while a decode error from either read makes `Apply` return that error
before any comparison or patch, with the state unchanged and no patch run. -/
theorem Apply_absent_markers_default_zero (cfg : Config) (s : State) :
    (s.getInt "patch-level" = .noState → s.getInt "patch-sublevel" = .noState →
      readStored s = .ok (0, 0) ∧ Apply cfg s = applyCore cfg 0 0 s) ∧
    (∀ n : Int, s.getInt "patch-level" = .noState →
      s.getInt "patch-sublevel" = .ok n →
      readStored s = .ok (0, n) ∧ Apply cfg s = applyCore cfg 0 n s) ∧
    (∀ n : Int, s.getInt "patch-level" = .ok n →
      s.getInt "patch-sublevel" = .noState →
      readStored s = .ok (n, 0) ∧ Apply cfg s = applyCore cfg n 0 s) ∧
    (∀ e, readStored s = .error e → Apply cfg s = ⟨.err e, s, []⟩) := by
  refine ⟨?_, ?_, ?_, ?_⟩
  · intro h1 h2
    have hr : readStored s = .ok (0, 0) :=
      (readStored_eq_ok_iff s 0 0).mpr ⟨Or.inr ⟨h1, rfl⟩, Or.inr ⟨h2, rfl⟩⟩
    exact ⟨hr, Apply_readStored_ok cfg s 0 0 hr⟩
  · intro n h1 h2
    have hr : readStored s = .ok (0, n) :=
      (readStored_eq_ok_iff s 0 n).mpr ⟨Or.inr ⟨h1, rfl⟩, Or.inl h2⟩
    exact ⟨hr, Apply_readStored_ok cfg s 0 n hr⟩
  · intro n h1 h2
    have hr : readStored s = .ok (n, 0) :=
      (readStored_eq_ok_iff s n 0).mpr ⟨Or.inl h1, Or.inr ⟨h2, rfl⟩⟩
    exact ⟨hr, Apply_readStored_ok cfg s n 0 hr⟩
  · intro e he
    exact Apply_readStored_error cfg s e he

theorem Apply_absent_markers_default_zero_witness :
    (readStored sEmpty = .ok (0, 0) ∧
      Apply cfgE sEmpty = applyCore cfgE 0 0 sEmpty) ∧
    Apply cfgE sH = ⟨.err (.decodeError "patch-sublevel"), sH, []⟩ :=
  ⟨(Apply_absent_markers_default_zero cfgE sEmpty).1 (by decide) (by decide),
   (Apply_absent_markers_default_zero cfgE sH).2.2.2
     (.decodeError "patch-sublevel") (by rfl)⟩

theorem Init_fresh_compute (cfg : Config) (s : State)
    (h1 : s.lookup "patch-level" = none) (h2 : s.lookup "patch-sublevel" = none) :
    Init cfg s = some ((s.set "patch-level" (.int cfg.Level)).set
      "patch-sublevel" (.int cfg.Sublevel)) := by
  have hg1 : s.getInt "patch-level" = .noState := by
    simp [State.getInt, h1]
  have hg2 : (s.set "patch-level" (.int cfg.Level)).getInt "patch-sublevel" =
      .noState := by
    rw [getInt_set_ne s _ _ _ (Ne.symm level_ne_sublevel)]
    simp [State.getInt, h2]
  simp [Init, hg1, hg2]

/-- C8: on a state holding neither marker key, `Init` succeeds (no panic),
stores the running `Level` under `"patch-level"` and the running `Sublevel`
under `"patch-sublevel"`, and invokes no patch function (it never touches the
registry). -/
theorem Init_stamps_fresh_state (cfg : Config) (s : State)
    (h1 : s.lookup "patch-level" = none) (h2 : s.lookup "patch-sublevel" = none) :
    Init cfg s = some ((s.set "patch-level" (.int cfg.Level)).set
      "patch-sublevel" (.int cfg.Sublevel)) ∧
    ((s.set "patch-level" (.int cfg.Level)).set "patch-sublevel"
      (.int cfg.Sublevel)).getInt "patch-level" = .ok cfg.Level ∧
    ((s.set "patch-level" (.int cfg.Level)).set "patch-sublevel"
      (.int cfg.Sublevel)).getInt "patch-sublevel" = .ok cfg.Sublevel :=
  ⟨Init_fresh_compute cfg s h1 h2, commit_getInt_level s _ _,
    commit_getInt_sub s _ _⟩

theorem Init_stamps_fresh_state_witness :
    sEmpty.lookup "patch-level" = none ∧
    sEmpty.lookup "patch-sublevel" = none ∧
    Init cfgE sEmpty = some ((sEmpty.set "patch-level" (.int cfgE.Level)).set
      "patch-sublevel" (.int cfgE.Sublevel)) :=
  ⟨by decide, by decide,
    (Init_stamps_fresh_state cfgE sEmpty (by decide) (by decide)).1⟩

/-- C9: `Init` panics exactly when a marker key is already present: a state
holding either `"patch-level"` or `"patch-sublevel"` makes it take a panic
branch, and under the precondition that neither key is present the panic
branches are unreachable (`Init` returns a state). -/
theorem Init_panics_iff_marker_present (cfg : Config) (s : State) :
    ((s.lookup "patch-level" ≠ none ∨ s.lookup "patch-sublevel" ≠ none) →
      Init cfg s = none) ∧
    (s.lookup "patch-level" = none → s.lookup "patch-sublevel" = none →
      (Init cfg s).isSome = true) := by
  constructor
  · intro h
    by_cases h1 : s.lookup "patch-level" = none
    · have h2 : s.lookup "patch-sublevel" ≠ none := by tauto
      have hg1 : s.getInt "patch-level" = .noState := by
        simp [State.getInt, h1]
      have hg2 : (s.set "patch-level" (.int cfg.Level)).getInt "patch-sublevel" ≠
          .noState := by
        rw [getInt_set_ne s _ _ _ (Ne.symm level_ne_sublevel)]
        rcases hv : s.lookup "patch-sublevel" with _ | v
        · exact absurd hv h2
        · rcases v with n | t <;> simp [State.getInt, hv]
      rcases hg2v : (s.set "patch-level" (.int cfg.Level)).getInt "patch-sublevel"
        with n | _ | _
      · simp [Init, hg1, hg2v]
      · exact absurd hg2v hg2
      · simp [Init, hg1, hg2v]
    · rcases hv : s.lookup "patch-level" with _ | v
      · exact absurd hv h1
      · rcases v with n | t <;> simp [Init, State.getInt, hv]
  · intro h1 h2
    rw [Init_fresh_compute cfg s h1 h2]
    rfl

theorem Init_panics_iff_marker_present_witness :
    Init cfgE sG = none ∧ (Init cfgE sEmpty).isSome = true :=
  ⟨(Init_panics_iff_marker_present cfgE sG).1 (Or.inl (by decide)),
   (Init_panics_iff_marker_present cfgE sEmpty).2 (by decide) (by decide)⟩

theorem levelLoop_zero (cfg : Config) (level : Int) (s : State) :
    levelLoop cfg 0 level s = ⟨.ok, s, []⟩ := rfl

theorem applySub_def (cfg : Config) (level first : Int) (s : State) :
    applySublevelPatches cfg level first s =
      sublevelLoop cfg level
        (((patchList cfg level).length : Int) - first).toNat first s := rfl

/-- C1 (amended): with the stored level equal to the running `Level` and the
stored sublevel `sl` strictly below the running `Sublevel`: every patch
invocation of `Apply` is at level `Level` with index at least `sl + 1` (so a
rerun after an interruption that committed sublevel `k` resumes from `k + 1`
and never re-runs index `k`); and provided index `sl + 1` exists
(`0 ≤ sl + 1`, the amendment) and the remaining patches succeed, `Apply`
succeeds, its trace is exactly the ascending run/commit sequence over indices
`sl + 1 .. len - 1`, and the stored markers end at `(Level, len - 1)`. -/
theorem Apply_runs_pending_sublevel_patches (cfg : Config) (s : State) (sl : Int)
    (hread : readStored s = .ok (cfg.Level, sl)) (hlt : sl < cfg.Sublevel) :
    (∀ lv i : Int, Event.run lv i ∈ (Apply cfg s).trace →
      lv = cfg.Level ∧ sl + 1 ≤ i) ∧
    (0 ≤ sl + 1 → sl + 1 < ((patchList cfg cfg.Level).length : Int) →
      listOk (patchList cfg cfg.Level) →
      (Apply cfg s).res = .ok ∧
      (Apply cfg s).trace = expTrace cfg.Level (sl + 1)
        (((patchList cfg cfg.Level).length : Int) - (sl + 1)).toNat ∧
      (Apply cfg s).state.getInt "patch-level" = .ok cfg.Level ∧
      (Apply cfg s).state.getInt "patch-sublevel" =
        .ok (((patchList cfg cfg.Level).length : Int) - 1)) := by
  have hA : ¬ (cfg.Level = cfg.Level ∧ sl = cfg.Sublevel) := by
    rintro ⟨_, h⟩; omega
  have hB : ¬ (cfg.Level = cfg.Level ∧ sl > cfg.Sublevel) := by
    rintro ⟨_, h⟩; omega
  have hng : ¬ cfg.Level > cfg.Level := by omega
  have happ : Apply cfg s =
      andThen
        (if sl + 1 < ((patchList cfg cfg.Level).length : Int) then
          applySublevelPatches cfg cfg.Level (sl + 1) s
        else ⟨.ok, s, []⟩)
        (fun s2 => levelLoop cfg (cfg.Level - cfg.Level).toNat (cfg.Level + 1) s2) := by
    rw [Apply_readStored_ok cfg s _ _ hread, applyCore_else cfg _ _ _ hng hA hB]
  have hf0 : (cfg.Level - cfg.Level).toNat = 0 := by simp
  rw [hf0] at happ
  constructor
  · -- every run event is at (Level, ≥ sl + 1)
    intro lv i hmem
    have hsub : ∀ o : Outcome,
        o = (if sl + 1 < ((patchList cfg cfg.Level).length : Int) then
          applySublevelPatches cfg cfg.Level (sl + 1) s
        else ⟨.ok, s, []⟩) →
        Event.run lv i ∈ o.trace → lv = cfg.Level ∧ sl + 1 ≤ i := by
      intro o ho hm
      by_cases hpre : sl + 1 < ((patchList cfg cfg.Level).length : Int)
      · rw [ho, if_pos hpre, applySub_def] at hm
        obtain ⟨i2, hi2, hle⟩ := sublevelLoop_trace_mem cfg cfg.Level _ (sl + 1) s _ hm
        rcases hi2 with h | h
        · injection h with ha hb
          exact ⟨ha, by omega⟩
        · exact absurd h (by simp)
      · rw [ho, if_neg hpre] at hm
        simp at hm
    rw [happ] at hmem
    by_cases ho : (if sl + 1 < ((patchList cfg cfg.Level).length : Int) then
        applySublevelPatches cfg cfg.Level (sl + 1) s
      else ⟨.ok, s, []⟩).res = .ok
    · rw [andThen_ok _ _ ho] at hmem
      rcases List.mem_append.mp hmem with hm | hm
      · exact hsub _ rfl hm
      · rw [levelLoop_zero] at hm
        simp at hm
    · rw [andThen_notok _ _ ho] at hmem
      exact hsub _ rfl hmem
  · -- exact behaviour when the pending patches exist and succeed
    intro h0 hpre hok
    rw [happ, if_pos hpre]
    have hlen : (sl + 1) +
        ((((patchList cfg cfg.Level).length : Int) - (sl + 1)).toNat : Int) =
        ((patchList cfg cfg.Level).length : Int) := by
      have := Int.toNat_of_nonneg
        (show (0 : Int) ≤ ((patchList cfg cfg.Level).length : Int) - (sl + 1) by omega)
      omega
    obtain ⟨hres1, htr1⟩ := sublevelLoop_exact cfg cfg.Level hok
      (((patchList cfg cfg.Level).length : Int) - (sl + 1)).toNat (sl + 1) s h0 hlen
    have ho1res : (applySublevelPatches cfg cfg.Level (sl + 1) s).res = .ok := by
      rw [applySub_def]; exact hres1
    rw [andThen_ok _ _ ho1res]
    have hfpos : 0 < (((patchList cfg cfg.Level).length : Int) - (sl + 1)).toNat := by
      omega
    rcases sublevelLoop_ok_keys cfg cfg.Level _ (sl + 1) s hres1 with
      ⟨hf, _⟩ | ⟨_, hkl, hks⟩
    · omega
    · have hkeq : sl + 1 +
          ((((patchList cfg cfg.Level).length : Int) - (sl + 1)).toNat : Int) - 1 =
          ((patchList cfg cfg.Level).length : Int) - 1 := by omega
      rw [hkeq] at hks
      refine ⟨?_, ?_, ?_, ?_⟩
      · show (levelLoop cfg 0 (cfg.Level + 1)
            (applySublevelPatches cfg cfg.Level (sl + 1) s).state).res = .ok
        rw [levelLoop_zero]
      · show (applySublevelPatches cfg cfg.Level (sl + 1) s).trace ++
            (levelLoop cfg 0 (cfg.Level + 1)
              (applySublevelPatches cfg cfg.Level (sl + 1) s).state).trace = _
        rw [levelLoop_zero, applySub_def, htr1]
        simp
      · show (levelLoop cfg 0 (cfg.Level + 1)
            (applySublevelPatches cfg cfg.Level (sl + 1) s).state).state.getInt
            "patch-level" = .ok cfg.Level
        rw [levelLoop_zero]
        rw [applySub_def]
        exact hkl
      · show (levelLoop cfg 0 (cfg.Level + 1)
            (applySublevelPatches cfg cfg.Level (sl + 1) s).state).state.getInt
            "patch-sublevel" = _
        rw [levelLoop_zero]
        rw [applySub_def]
        exact hks

theorem listOk_pId_three : listOk [pId, pId, pId] := by
  intro p hp st
  simp only [List.mem_cons, List.not_mem_nil, or_false] at hp
  rcases hp with h | h | h <;> subst h <;> rfl

theorem Apply_runs_pending_sublevel_patches_witness :
    readStored sA = .ok (cfgA.Level, 0) ∧ (0 : Int) < cfgA.Sublevel ∧
    (0 : Int) ≤ 0 + 1 ∧
    (0 : Int) + 1 < ((patchList cfgA cfgA.Level).length : Int) ∧
    (Apply cfgA sA).res = .ok ∧
    (Apply cfgA sA).trace = expTrace cfgA.Level 1 2 := by
  have hok : listOk (patchList cfgA cfgA.Level) := by
    have h : patchList cfgA cfgA.Level = [pId, pId, pId] := rfl
    rw [h]
    exact listOk_pId_three
  have hmain := (Apply_runs_pending_sublevel_patches cfgA sA 0 (by rfl)
    (by decide)).2 (by decide) (by decide) hok
  exact ⟨by rfl, by decide, by decide, by decide, hmain.1, hmain.2.1⟩

/-- C4 (amended): with stored level `l` strictly below the running `Level`,
stored sublevel at least -1 (the amendment) and patch functions that succeed:
if every level in `(l, Level]` is present in the registry, `Apply` succeeds
and its trace is the pending sublevel patches of `l` followed by each higher
level's full list from index 0, in ascending level order; if some level `l0`
in that range is missing (all levels before it present), `Apply` fails with
`MissingMigrationPath` carrying `l0 - 1` and no patch of level `l0` or higher
is run. -/
theorem Apply_missing_migration_path (cfg : Config) (s : State) (l sl : Int)
    (hread : readStored s = .ok (l, sl)) (hlt : l < cfg.Level)
    (hnn : 0 ≤ sl + 1) (hok : ∀ lv : Int, listOk (patchList cfg lv)) :
    ((∀ lv : Int, l < lv → lv ≤ cfg.Level → cfg.patches lv ≠ none) →
      (Apply cfg s).res = .ok ∧
      (Apply cfg s).trace =
        (if sl + 1 < ((patchList cfg l).length : Int) then
          expTrace l (sl + 1) (((patchList cfg l).length : Int) - (sl + 1)).toNat
        else []) ++ expLvlTrace cfg (l + 1) (cfg.Level - l).toNat) ∧
    (∀ l0 : Int, cfg.patches l0 = none → l < l0 → l0 ≤ cfg.Level →
      (∀ lv : Int, l < lv → lv < l0 → cfg.patches lv ≠ none) →
      (Apply cfg s).res = .err (.missingMigrationPath (l0 - 1)) ∧
      (∀ lv i : Int, Event.run lv i ∈ (Apply cfg s).trace → lv < l0)) := by
  have hA : ¬ (l = cfg.Level ∧ sl = cfg.Sublevel) := by rintro ⟨h, _⟩; omega
  have hB : ¬ (l = cfg.Level ∧ sl > cfg.Sublevel) := by rintro ⟨h, _⟩; omega
  have hng : ¬ l > cfg.Level := by omega
  have happ : Apply cfg s =
      andThen
        (if sl + 1 < ((patchList cfg l).length : Int) then
          applySublevelPatches cfg l (sl + 1) s
        else ⟨.ok, s, []⟩)
        (fun s2 => levelLoop cfg (cfg.Level - l).toNat (l + 1) s2) := by
    rw [Apply_readStored_ok cfg s _ _ hread, applyCore_else cfg _ _ _ hng hA hB]
  have htn : (((cfg.Level - l).toNat : Nat) : Int) = cfg.Level - l :=
    Int.toNat_of_nonneg (by omega)
  have hpreboth : (if sl + 1 < ((patchList cfg l).length : Int) then
        applySublevelPatches cfg l (sl + 1) s
      else ⟨.ok, s, []⟩).res = .ok ∧
      (if sl + 1 < ((patchList cfg l).length : Int) then
        applySublevelPatches cfg l (sl + 1) s
      else ⟨.ok, s, []⟩).trace =
      (if sl + 1 < ((patchList cfg l).length : Int) then
        expTrace l (sl + 1) (((patchList cfg l).length : Int) - (sl + 1)).toNat
      else []) := by
    by_cases hpre : sl + 1 < ((patchList cfg l).length : Int)
    · rw [if_pos hpre, if_pos hpre, applySub_def]
      exact sublevelLoop_exact cfg l (hok l) _ (sl + 1) s hnn
        (by
          have := Int.toNat_of_nonneg
            (show (0 : Int) ≤ ((patchList cfg l).length : Int) - (sl + 1) by omega)
          omega)
    · rw [if_neg hpre, if_neg hpre]
      exact ⟨rfl, rfl⟩
  have hpremem : ∀ lv i : Int,
      Event.run lv i ∈ (if sl + 1 < ((patchList cfg l).length : Int) then
        applySublevelPatches cfg l (sl + 1) s
      else ⟨.ok, s, []⟩).trace → lv = l := by
    intro lv i hm
    by_cases hpre : sl + 1 < ((patchList cfg l).length : Int)
    · rw [if_pos hpre, applySub_def] at hm
      obtain ⟨i2, hi2, _⟩ := sublevelLoop_trace_mem cfg l _ (sl + 1) s _ hm
      rcases hi2 with h | h
      · injection h with ha hb
      · exact absurd h (by simp)
    · rw [if_neg hpre] at hm
      simp at hm
  constructor
  · -- all levels present: full migration
    intro hpres
    obtain ⟨hllres, hlltr⟩ := levelLoop_exact cfg hok (cfg.Level - l).toNat (l + 1)
      (if sl + 1 < ((patchList cfg l).length : Int) then
        applySublevelPatches cfg l (sl + 1) s
      else ⟨.ok, s, []⟩).state
      (fun lv h1 h2 => hpres lv (by omega) (by omega))
    rw [happ, andThen_ok _ _ hpreboth.1]
    exact ⟨hllres, by rw [hpreboth.2] at *; rw [hlltr]⟩
  · -- a missing level aborts with MissingMigrationPath
    intro l0 hmiss hgt0 hle0 hpres0
    obtain ⟨hllres, hlltr⟩ := levelLoop_missing cfg hok l0 hmiss
      (cfg.Level - l).toNat (l + 1)
      (if sl + 1 < ((patchList cfg l).length : Int) then
        applySublevelPatches cfg l (sl + 1) s
      else ⟨.ok, s, []⟩).state
      (by omega) (by omega) (fun lv h1 h2 => hpres0 lv (by omega) h2)
    rw [happ, andThen_ok _ _ hpreboth.1]
    refine ⟨hllres, fun lv i hmem => ?_⟩
    rcases List.mem_append.mp hmem with hm | hm
    · rw [hpremem lv i hm]; omega
    · obtain ⟨lv2, i2, hi2, hlt2⟩ := hlltr _ hm
      rcases hi2 with h | h
      · injection h with ha hb
        omega
      · exact absurd h (by simp)

theorem listOk_cfgI : ∀ lv : Int, listOk (patchList cfgI lv) := by
  intro lv p hp st
  have hcases : patchList cfgI lv = [pId] ∨ patchList cfgI lv = [pId, pId] ∨
      patchList cfgI lv = [] := by
    by_cases h1 : lv = 1
    · subst h1; exact Or.inl rfl
    · by_cases h2 : lv = 2
      · subst h2; exact Or.inr (Or.inl rfl)
      · refine Or.inr (Or.inr ?_)
        simp [patchList, cfgI, h1, h2]
  rcases hcases with h | h | h <;> rw [h] at hp
  · simp only [List.mem_cons, List.not_mem_nil, or_false] at hp
    subst hp; rfl
  · simp only [List.mem_cons, List.not_mem_nil, or_false] at hp
    rcases hp with hp | hp <;> (subst hp; rfl)
  · cases hp

theorem Apply_missing_migration_path_witness :
    readStored sI = .ok (0, 0) ∧ (0 : Int) < cfgI.Level ∧
    (∀ lv : Int, 0 < lv → lv ≤ cfgI.Level → cfgI.patches lv ≠ none) ∧
    (Apply cfgI sI).res = .ok ∧
    (Apply cfgI sI).trace = expLvlTrace cfgI 1 2 := by
  have hpres : ∀ lv : Int, 0 < lv → lv ≤ cfgI.Level → cfgI.patches lv ≠ none := by
    intro lv h1 h2
    have hL : cfgI.Level = 2 := rfl
    rw [hL] at h2
    have : lv = 1 ∨ lv = 2 := by omega
    rcases this with h | h <;> subst h <;> simp [cfgJ, cfgI]
  have hmain := (Apply_missing_migration_path cfgI sI 0 0 (by rfl) (by decide)
    (by decide) listOk_cfgI).1 hpres
  exact ⟨by rfl, by decide, hpres, hmain.1, by
    have := hmain.2
    exact this⟩

/-- C4 counterexample: running (1, 0) with an empty registry and a state
stored at level 0 with sublevel -2.  The stored level is strictly below the
running one and the registry has no entry for level 1, yet `Apply` does not
fail with `MissingMigrationPath`: it panics on the negative sublevel index
before ever reaching the level loop. -/
theorem Apply_negative_sublevel_blocks_missing_path :
    readStored sD = .ok (0, -2) ∧ (0 : Int) < cfgD.Level ∧
    cfgD.patches 1 = none ∧
    (Apply cfgD sD).res = .panicked ∧
    (Apply cfgD sD).res ≠ .err (.missingMigrationPath 0) ∧
    (Apply cfgD sD).trace = [] :=
  ⟨by rfl, by decide, by rfl, by decide, by decide, by decide⟩

/-- C1 counterexample: running pair (0, 0) with one sublevel patch at level 0
and stored pair (0, -2).  The stored sublevel is strictly below the running
one and `storedSublevel + 1 < len(patches[0])` holds, yet `Apply` runs no
patch function at all (empty trace): it hits the out-of-range slice index -1
and panics, instead of running the patches the claim mandates. -/
theorem Apply_negative_sublevel_panics :
    readStored sB = .ok (cfgB.Level, -2) ∧ (-2 : Int) < cfgB.Sublevel ∧
    (-2 : Int) + 1 < ((patchList cfgB cfgB.Level).length : Int) ∧
    (Apply cfgB sB).res = .panicked ∧ (Apply cfgB sB).trace = [] :=
  ⟨by rfl, by decide, by decide, by decide, by decide⟩

/-- C2 (amended): provided every failing patch function leaves the two stored
marker keys as it found them, whenever `Apply` returns a wrapped patch-function
error the stored markers hold exactly the pair recorded by the last successful
`applyOne` commit of this run (`keysFrom`: the last `committed` event of the
trace), or the initial values if nothing was committed; the failing patch's
own bump is never recorded. -/
theorem Apply_patch_failure_keeps_markers (cfg : Config) (s : State)
    (hfp : ∀ lv : Int, failPres (patchList cfg lv)) (lv sl : Int) (msg : String)
    (herr : (Apply cfg s).res = .err (.cannotPatch lv sl msg)) :
    keysFrom s (Apply cfg s) := by
  rcases hrs : readStored s with e | ⟨l, sl0⟩
  · obtain ⟨k, hk⟩ := readStored_error_shape s e hrs
    rw [Apply_readStored_error cfg s e hrs] at herr
    subst hk
    simp at herr
  · rw [Apply_readStored_ok cfg s l sl0 hrs] at herr ⊢
    by_cases hgt : l > cfg.Level
    · rw [applyCore_incompatible cfg l sl0 s hgt] at herr
      simp at herr
    · by_cases hA : l = cfg.Level ∧ sl0 = cfg.Sublevel
      · rw [applyCore_noop cfg l sl0 s hA.1 hA.2] at herr
        simp at herr
      · by_cases hB : l = cfg.Level ∧ sl0 > cfg.Sublevel
        · rw [applyCore_downgrade cfg l sl0 s hB.1 hB.2] at herr
          simp at herr
        · rw [applyCore_else cfg l sl0 s hgt hA hB]
          have hkf1 : keysFrom s
              (if sl0 + 1 < ((patchList cfg l).length : Int) then
                applySublevelPatches cfg l (sl0 + 1) s
              else ⟨.ok, s, []⟩) := by
            by_cases hpre : sl0 + 1 < ((patchList cfg l).length : Int)
            · rw [if_pos hpre, applySub_def]
              exact sublevelLoop_keysFrom cfg l (hfp l) _ _ s
            · rw [if_neg hpre]
              exact ⟨rfl, rfl⟩
          by_cases ho : (if sl0 + 1 < ((patchList cfg l).length : Int) then
              applySublevelPatches cfg l (sl0 + 1) s
            else ⟨.ok, s, []⟩).res = .ok
          · rw [andThen_ok _ _ ho]
            exact keysFrom_seq s _ _ _ hkf1 (levelLoop_keysFrom cfg hfp _ _ _)
          · rw [andThen_notok _ _ ho]
            exact hkf1

theorem failPres_cfgJ : ∀ lv : Int, failPres (patchList cfgJ lv) := by
  intro lv p hp st e st2 hps
  by_cases h1 : lv = 1
  · subst h1
    have h : patchList cfgJ 1 = [pFail] := rfl
    rw [h] at hp
    simp only [List.mem_cons, List.not_mem_nil, or_false] at hp
    subst hp
    have h2 : (some "boom", st) = (some e, st2) := hps
    injection h2 with he hst
    rw [← hst]
    exact ⟨rfl, rfl⟩
  · have h : patchList cfgJ lv = [] := by simp [patchList, cfgJ, h1]
    rw [h] at hp
    cases hp

theorem Apply_patch_failure_keeps_markers_witness :
    (Apply cfgJ sEmpty).res = .err (.cannotPatch 1 0 "boom") ∧
    keysFrom sEmpty (Apply cfgJ sEmpty) :=
  ⟨by decide,
    Apply_patch_failure_keeps_markers cfgJ sEmpty failPres_cfgJ 1 0 "boom"
      (by decide)⟩

/-- C2 counterexample: the level-1 patch overwrites `"patch-level"` with 99
and then fails.  `Apply` returns the wrapped error and no `(level, sublevel)`
pair was ever committed, yet the stored patch level is 99 instead of its
initial (absent) value: the claim fails for a failing patch function that
itself mutates the markers. -/
theorem Apply_failing_patch_corrupts_markers :
    (Apply cfgC sEmpty).res = .err (.cannotPatch 1 0 "boom") ∧
    lastCommitted (Apply cfgC sEmpty).trace = none ∧
    sEmpty.lookup "patch-level" = none ∧
    (Apply cfgC sEmpty).state.lookup "patch-level" = some (.int 99) :=
  ⟨by decide, by rfl, by rfl, by decide⟩

/-- C5: `Apply` is idempotent — for every registry and starting state, if one
call to `Apply` succeeds, an immediate second call on the resulting state also
succeeds and invokes zero patch functions (its trace is empty). -/
theorem Apply_idempotent (cfg : Config) (s : State)
    (h : (Apply cfg s).res = .ok) :
    (Apply cfg (Apply cfg s).state).res = .ok ∧
    (Apply cfg (Apply cfg s).state).trace = [] := by
  rcases hrs : readStored s with e | ⟨l, sl⟩
  · rw [Apply_readStored_error cfg s e hrs] at h
    simp at h
  · rw [Apply_readStored_ok cfg s l sl hrs] at h ⊢
    by_cases hgt : l > cfg.Level
    · rw [applyCore_incompatible cfg l sl s hgt] at h
      simp at h
    · by_cases hA : l = cfg.Level ∧ sl = cfg.Sublevel
      · rw [applyCore_noop cfg l sl s hA.1 hA.2]
        show (Apply cfg s).res = .ok ∧ (Apply cfg s).trace = []
        rw [Apply_readStored_ok cfg s l sl hrs,
          applyCore_noop cfg l sl s hA.1 hA.2]
        exact ⟨rfl, rfl⟩
      · by_cases hB : l = cfg.Level ∧ sl > cfg.Sublevel
        · rw [applyCore_downgrade cfg l sl s hB.1 hB.2]
          show (Apply cfg (s.set "patch-sublevel" (.int cfg.Sublevel))).res = .ok ∧
            (Apply cfg (s.set "patch-sublevel" (.int cfg.Sublevel))).trace = []
          have hrs2 : readStored (s.set "patch-sublevel" (.int cfg.Sublevel)) =
              .ok (l, cfg.Sublevel) := readStored_set_sub s l sl cfg.Sublevel hrs
          rw [Apply_readStored_ok cfg _ l cfg.Sublevel hrs2,
            applyCore_noop cfg l cfg.Sublevel _ hB.1 rfl]
          exact ⟨rfl, rfl⟩
        · -- the migration path actually ran
          rw [applyCore_else cfg l sl s hgt hA hB] at h ⊢
          rw [andThen_res_ok] at h
          obtain ⟨h1, h2⟩ := h
          rw [andThen_ok _ _ h1]
          set preO := (if sl + 1 < ((patchList cfg l).length : Int) then
              applySublevelPatches cfg l (sl + 1) s
            else ⟨.ok, s, []⟩) with hpreO
          set o2 := levelLoop cfg (cfg.Level - l).toNat (l + 1) preO.state with ho2
          show (Apply cfg o2.state).res = .ok ∧ (Apply cfg o2.state).trace = []
          have h2o : o2.res = .ok := h2
          have htn : (((cfg.Level - l).toNat : Nat) : Int) = cfg.Level - l :=
            Int.toNat_of_nonneg (by omega)
          obtain ⟨hpres, hdisj⟩ :=
            levelLoop_ok_char cfg (cfg.Level - l).toNat (l + 1) preO.state h2o
          rcases hdisj with ⟨hst, hemp⟩ | ⟨m, hm1, hm2, hmne, hemp, hkl2, hks2⟩
          · -- the level loop committed nothing: markers come from the pre-step
            have hcommon : ∃ sl2 : Int, readStored preO.state = .ok (l, sl2) ∧
                ((patchList cfg l).length : Int) ≤ sl2 + 1 := by
              by_cases hpre : sl + 1 < ((patchList cfg l).length : Int)
              · have hps : preO = applySublevelPatches cfg l (sl + 1) s := by
                  rw [hpreO, if_pos hpre]
                have h1x : (sublevelLoop cfg l
                    (((patchList cfg l).length : Int) - (sl + 1)).toNat
                    (sl + 1) s).res = .ok := by
                  rw [← applySub_def, ← hps]
                  exact h1
                rcases sublevelLoop_ok_keys cfg l _ (sl + 1) s h1x with
                  ⟨hf, _⟩ | ⟨_, hkl, hks⟩
                · omega
                · have hkeq : sl + 1 +
                      (((((patchList cfg l).length : Int) - (sl + 1)).toNat : Nat) : Int)
                      - 1 = ((patchList cfg l).length : Int) - 1 := by omega
                  rw [hkeq] at hks
                  refine ⟨((patchList cfg l).length : Int) - 1, ?_, by omega⟩
                  have hkl' : preO.state.getInt "patch-level" = .ok l := by
                    rw [hps, applySub_def]; exact hkl
                  have hks' : preO.state.getInt "patch-sublevel" =
                      .ok (((patchList cfg l).length : Int) - 1) := by
                    rw [hps, applySub_def]; exact hks
                  exact (readStored_eq_ok_iff _ _ _).mpr ⟨Or.inl hkl', Or.inl hks'⟩
              · have hps : preO = ⟨.ok, s, []⟩ := by rw [hpreO, if_neg hpre]
                refine ⟨sl, ?_, by omega⟩
                rw [hps]
                exact hrs
            obtain ⟨sl2, hrs2, hsl2⟩ := hcommon
            have hrs3 : readStored o2.state = .ok (l, sl2) := by
              rw [hst]; exact hrs2
            rw [Apply_readStored_ok cfg o2.state _ _ hrs3]
            apply applyCore_settled
            · omega
            · exact hsl2
            · intro lv hlv1 hlv2
              have hp := hpres lv (by omega) (by omega)
              have he := hemp lv (by omega) (by omega)
              rcases hq : cfg.patches lv with _ | ps
              · exact absurd hq hp
              · rw [patchList, hq] at he
                simp only [Option.getD_some] at he
                rw [he]
          · -- the level loop committed up to level m
            have hrs2 : readStored o2.state =
                .ok (m, ((patchList cfg m).length : Int) - 1) :=
              (readStored_eq_ok_iff _ _ _).mpr ⟨Or.inl hkl2, Or.inl hks2⟩
            rw [Apply_readStored_ok cfg o2.state _ _ hrs2]
            apply applyCore_settled
            · omega
            · omega
            · intro lv hlv1 hlv2
              have hp := hpres lv (by omega) (by omega)
              have he := hemp lv (by omega) (by omega)
              rcases hq : cfg.patches lv with _ | ps
              · exact absurd hq hp
              · rw [patchList, hq] at he
                simp only [Option.getD_some] at he
                rw [he]

theorem Apply_idempotent_witness :
    (Apply cfgA sA).res = .ok ∧
    (Apply cfgA (Apply cfgA sA).state).res = .ok ∧
    (Apply cfgA (Apply cfgA sA).state).trace = [] :=
  ⟨by decide, (Apply_idempotent cfgA sA (by decide)).1,
    (Apply_idempotent cfgA sA (by decide)).2⟩

end Patch
